import Mathlib

/-!
Shallow embedding of the kjv-sources corpus tooling (Go) in Lean 4.

The embedding covers:
* the `internal/util` data model (`Token`, `Verse`, `Footnote`, `Chapter`);
* the read-side resolver `pkg/kjvcorpus` (`extractVerses`, `extractFootnotes`,
  `loadChapter`, `Resolve`) with the chapter cache modelled as an association
  list and disk access modelled as an oracle parameter;
* the ingest validator (`parseFilename`, `ValidateChapterFile` and its
  sub-checks) and the per-chapter step of `ProcessBook`;
* the verify tool's per-file validation (`flatten`, `validateChapterFile`);
* the HTML chapter parser (`getTextContent`, `extractVerseTokens`,
  `extractTokensFromNode`, `extractVersePlainText`, `extractVerses`,
  `decodeHTMLEntities`), with the parsed HTML tree modelled as an inductive
  node type.

Go maps are modelled as association lists (later insertions shadow earlier
ones where the code relies on overwrite semantics); Go `nil` slices that the
code distinguishes from empty slices are modelled with `Option`; Go string
scanning is modelled over `List Char`.
-/

namespace KJV

/-! ## Character and string helpers mirroring the Go standard library -/

/-- ASCII digit test, as used by the byte comparisons `c >= '0' && c <= '9'`. -/
def isDigitChar (c : Char) : Bool := '0' ≤ c && c ≤ '9'

/-- ASCII alphanumeric test, as in `parseFilename`'s abbreviation check. -/
def isAlnumChar (c : Char) : Bool :=
  ('A' ≤ c && c ≤ 'Z') || ('a' ≤ c && c ≤ 'z') || ('0' ≤ c && c ≤ '9')

/-- `unicode.IsSpace` (the class trimmed by `strings.TrimSpace` and split on
by `strings.Fields`). -/
def isGoSpace (c : Char) : Bool :=
  c = '\t' || c = '\n' || c = (Char.ofNat 11) || c = (Char.ofNat 12) ||
  c = '\r' || c = ' ' || c = (Char.ofNat 0x85) || c = (Char.ofNat 0xA0) ||
  c = (Char.ofNat 0x1680) || ((Char.ofNat 0x2000) ≤ c && c ≤ (Char.ofNat 0x200A)) ||
  c = (Char.ofNat 0x2028) || c = (Char.ofNat 0x2029) || c = (Char.ofNat 0x202F) ||
  c = (Char.ofNat 0x205F) || c = (Char.ofNat 0x3000)

/-- The character class matched by `\s` in Go's RE2 regexp: `[\t\n\f\r ]`. -/
def isRegexSpace (c : Char) : Bool :=
  c = '\t' || c = '\n' || c = (Char.ofNat 12) || c = '\r' || c = ' '

/-- `strings.TrimSpace`: drop Unicode space from both ends. -/
def goTrim (cs : List Char) : List Char :=
  ((cs.dropWhile isGoSpace).reverse.dropWhile isGoSpace).reverse

/-- `regexp \s+` replaced by a single space: collapse every maximal run of
regex whitespace to one `' '`. -/
def collapseWS : List Char → List Char
  | [] => []
  | [c] => if isRegexSpace c then [' '] else [c]
  | c₁ :: c₂ :: rest =>
    if isRegexSpace c₁ && isRegexSpace c₂ then collapseWS (c₂ :: rest)
    else (if isRegexSpace c₁ then ' ' else c₁) :: collapseWS (c₂ :: rest)

/-- `strings.FieldsFunc` / `strings.Fields`: split on the predicate, dropping
empty fields.  Accumulator-based so the recursion is structural. -/
def fieldsByAux (p : Char → Bool) : List Char → List Char → List (List Char)
  | [], cur => if cur = [] then [] else [cur.reverse]
  | c :: rest, cur =>
    if p c then
      (if cur = [] then fieldsByAux p rest [] else cur.reverse :: fieldsByAux p rest [])
    else fieldsByAux p rest (c :: cur)

def fieldsBy (p : Char → Bool) (cs : List Char) : List (List Char) :=
  fieldsByAux p cs []

theorem dropWhile_length_le (p : Char → Bool) (l : List Char) :
    (l.dropWhile p).length ≤ l.length := by
  induction l with
  | nil => simp [List.dropWhile]
  | cons a t ih =>
    by_cases h : p a <;> simp [List.dropWhile, h] <;> omega

theorem tail_length_le (l : List Char) : l.tail.length ≤ l.length := by
  cases l <;> simp

/-- `strings.ReplaceAll`: leftmost, non-overlapping replacement of `old` by
`new`.  Empty `old` is never used by the code; we return the input then.
Structured with explicit fuel (one unit per examined position, so the
input length always suffices) to keep the definition kernel-reducible. -/
def goReplaceAllAux (old new : List Char) : Nat → List Char → List Char
  | _, [] => []
  | 0, cs => cs
  | fuel + 1, c :: rest =>
    if old ≠ [] ∧ old.isPrefixOf (c :: rest) then
      new ++ goReplaceAllAux old new fuel ((c :: rest).drop old.length)
    else
      c :: goReplaceAllAux old new fuel rest

def goReplaceAll (old new cs : List Char) : List Char :=
  goReplaceAllAux old new cs.length cs

/-- Decimal value of a digit list (the numeric core of `strconv.Atoi`). -/
def digitsVal (ds : List Char) : Nat :=
  ds.foldl (fun a c => 10 * a + (c.toNat - '0'.toNat)) 0

/-- `strconv.Atoi`: optional sign, a nonempty run of ASCII digits, and the
value must fit a signed 64-bit integer. -/
def atoi (s : String) : Option Int :=
  match s.toList with
  | [] => none
  | c :: rest =>
    let signed : Bool × List Char :=
      if c = '-' then (true, rest) else if c = '+' then (false, rest) else (false, c :: rest)
    let ds := signed.2
    if ds = [] ∨ ¬ ds.all isDigitChar then none
    else
      let v : Int := if signed.1 then -(digitsVal ds : Int) else (digitsVal ds : Int)
      if -(2 ^ 63) ≤ v ∧ v ≤ 2 ^ 63 - 1 then some v else none

/-- ASCII uppercase of one character (`strings.ToUpper` restricted to the
ASCII range, the only range reachable after the alphanumeric check). -/
def upChar (c : Char) : Char :=
  if 'a' ≤ c && c ≤ 'z' then Char.ofNat (c.toNat - 32) else c

/-! ## decodeHTMLEntities -/

/-- The named-entity replacement table of `decodeHTMLEntities`, in source
order.  In Go this is a `map[string]string`, so the iteration order used at
run time is unspecified; functions below take the order as a parameter. -/
def entityTable : List (String × String) :=
  [("&#160;", " "), ("&nbsp;", " "), ("&amp;", "&"), ("&lt;", "<"),
   ("&gt;", ">"), ("&quot;", "\""), ("&apos;", "'")]

/-- All leftmost non-overlapping matches of the regexp `&#(\d+);`: scan for
`'&'`, require `'#'` and a nonempty maximal digit run closed by `';'`;
failed match attempts advance one character.  Fueled (the input length
always suffices) to keep the definition kernel-reducible. -/
def findNumericAux : Nat → List Char → List (List Char)
  | _, [] => []
  | 0, _ => []
  | fuel + 1, c :: rest =>
    if c = '&' then
      match rest with
      | '#' :: rest₂ =>
        if (rest₂.takeWhile isDigitChar) ≠ [] ∧
            (rest₂.dropWhile isDigitChar).head? = some ';' then
          ('&' :: '#' :: ((rest₂.takeWhile isDigitChar) ++ [';'])) ::
            findNumericAux fuel (rest₂.dropWhile isDigitChar).tail
        else findNumericAux fuel ('#' :: rest₂)
      | other => findNumericAux fuel other
    else findNumericAux fuel rest

def findNumeric (cs : List Char) : List (List Char) :=
  findNumericAux cs.length cs

/-- One pass of the numeric-entity loop body: replace every match whose value
parses and is below 128 by the corresponding ASCII character. -/
def numericPass (cs : List Char) : List Char :=
  (findNumeric cs).foldl
    (fun acc m =>
      let numDs := (m.drop 2).dropLast
      match atoi (String.mk numDs) with
      | some num => if num < 128 then goReplaceAll m [Char.ofNat num.toNat] acc else acc
      | none => acc)
    cs

/-- The bounded (10-iteration) numeric-entity loop of `decodeHTMLEntities`. -/
def numericLoop : Nat → List Char → List Char
  | 0, cs => cs
  | fuel + 1, cs => if findNumeric cs = [] then cs else numericLoop fuel (numericPass cs)

/-- `decodeHTMLEntities`, with the table iteration order as a parameter: the
named replacements are applied with `strings.ReplaceAll` in that order, then
the numeric-entity loop runs. -/
def decodeHTMLEntitiesWith (order : List (String × String)) (s : String) : String :=
  String.mk (numericLoop 10
    (order.foldl (fun acc p => goReplaceAll p.1.toList p.2.toList acc) s.toList))

/-- `decodeHTMLEntities` at the source order of the table literal. -/
def decodeHTMLEntities (s : String) : String :=
  decodeHTMLEntitiesWith entityTable s

/-! ## Data model (`internal/util`) -/

/-- Go `util.Token`: three optional string fields (`t`, `add`, `nd`), the
zero value of each being the empty string. -/
structure Token where
  text : String
  add : String
  nd : String
deriving Repr, DecidableEq

/-- Go `util.Verse`. -/
structure Verse where
  v : Int
  plain : String
  tokens : List Token
deriving Repr, DecidableEq

/-- Go `util.Footnote` (the nested `At struct` flattened to `atV`). -/
structure Footnote where
  id : String
  mark : String
  atV : Int
  text : String
deriving Repr, DecidableEq

/-- Go `util.Chapter`.  `Footnotes` carries `omitempty` and the code
distinguishes `nil` from present, hence `Option`. -/
structure Chapter where
  schema : Int
  work : String
  osis : String
  abbr : String
  chapter : Int
  verses : List Verse
  footnotes : Option (List Footnote)
deriving Repr, DecidableEq

/-! ## Reference resolver and chapter cache (`pkg/kjvcorpus`) -/

/-- `bibleref.Book` as converted by `Open` from `util.BookMetadata`. -/
structure Book where
  osis : String
  name : String
  aliases : List String
  testament : String
  order : Int
  chapters : Int
deriving Repr, DecidableEq

/-- `canonref/util.VerseRange`. -/
structure VerseRange where
  startVerse : Int
  endVerse : Option Int
deriving Repr, DecidableEq

/-- `bibleref.BibleRef`, restricted to the fields `Resolve` reads.  A zero
chapter stands for "no chapter supplied" (the Go zero value). -/
structure BibleRef where
  osis : String
  chapter : Int
  verse : Option VerseRange
deriving Repr, DecidableEq

inductive CorpusErrorKind where
  | fileError
  | parseError
  | rangeError
  | contentError
deriving Repr, DecidableEq

/-- The sentinel `errors.New` values wrapped by `CorpusError.Err` (a JSON
unmarshal failure is wrapped as `jsonError`). -/
inductive ErrTag where
  | errInvalidRoot
  | errUnknownBook
  | errChapterNotFound
  | errVerseOutOfRange
  | jsonError
deriving Repr, DecidableEq

structure CorpusError where
  kind : CorpusErrorKind
  message : Option String
  err : ErrTag
deriving Repr, DecidableEq

/-- Go map lookup over an association list (first binding wins; the resolver
only ever inserts fresh keys, so first- vs last-wins is immaterial there). -/
def alookup {α : Type} (l : List (String × α)) (k : String) : Option α :=
  (l.find? (fun p => p.1 = k)).map (fun p => p.2)

/-- The mutable state of a `Corpus`: the book index built by `Open` and the
chapter cache filled by `loadChapter`. -/
structure Corpus where
  root : String
  booksByID : List (String × Book)
  chapters : List (String × Chapter)
deriving Repr, DecidableEq

/-- `Resolved`, the result record of `Resolve`. -/
structure Resolved where
  ref : BibleRef
  bookName : String
  chapter : Chapter
  verses : List Verse
  footnotes : List Footnote
deriving Repr, DecidableEq

/-- Outcome of reading and unmarshalling one chapter file from disk
(`os.ReadFile` followed by `json.Unmarshal`), supplied as an oracle. -/
inductive DiskResult where
  | readErr
  | parseErr
  | ok (ch : Chapter)
deriving Repr, DecidableEq

/-- `fmt.Sprintf("%s:%d", osis, chapter)`, the cache key. -/
def cacheKey (osis : String) (chapter : Int) : String :=
  osis ++ ":" ++ toString chapter

/-- `fmt.Sprintf("ch%02d.json", chapter)` path component (zero-padded to
width 2). -/
def chapterFileName (chapter : Int) : String :=
  let s := toString chapter
  if s.length < 2 then "ch0" ++ s ++ ".json" else "ch" ++ s ++ ".json"

def chapterPath (root osis : String) (chapter : Int) : String :=
  root ++ "/books/" ++ osis ++ "/" ++ chapterFileName chapter

/-- `loadChapter`: cache lookup, then disk read/parse, then cache insert.
Returns the result together with the corpus state after the call. -/
def loadChapter (disk : String → Int → DiskResult) (c : Corpus)
    (osis : String) (chapter : Int) : Except CorpusError Chapter × Corpus :=
  let key := cacheKey osis chapter
  match alookup c.chapters key with
  | some ch => (Except.ok ch, c)
  | none =>
    match disk osis chapter with
    | DiskResult.readErr =>
      (Except.error
        { kind := CorpusErrorKind.fileError
          message := some ("failed to read chapter file: " ++ chapterPath c.root osis chapter)
          err := ErrTag.errChapterNotFound }, c)
    | DiskResult.parseErr =>
      (Except.error
        { kind := CorpusErrorKind.parseError
          message := some ("failed to parse chapter file: " ++ chapterPath c.root osis chapter)
          err := ErrTag.jsonError }, c)
    | DiskResult.ok ch =>
      (Except.ok ch, { c with chapters := (key, ch) :: c.chapters })

/-- The loop of `extractVerses` appending the verses inside the range. -/
def extractVersesLoop (startVerse endVerse : Int) : List Verse → List Verse
  | [] => []
  | v :: rest =>
    if startVerse ≤ v.v ∧ v.v ≤ endVerse then
      v :: extractVersesLoop startVerse endVerse rest
    else
      extractVersesLoop startVerse endVerse rest

/-- `Corpus.extractVerses`. -/
def extractVerses (chapter : Chapter) (verseRange : Option VerseRange) : List Verse :=
  match verseRange with
  | none => chapter.verses
  | some vr =>
    let startVerse := vr.startVerse
    let endVerse := match vr.endVerse with | some e => e | none => startVerse
    extractVersesLoop startVerse endVerse chapter.verses

/-- The footnote-collecting loop of `extractFootnotes`; the Go
`map[int]bool` verse set is modelled by membership in the verse-number
list. -/
def extractFootnotesLoop (verseSet : List Int) : List Footnote → List Footnote
  | [] => []
  | fn :: rest =>
    if verseSet.contains fn.atV then fn :: extractFootnotesLoop verseSet rest
    else extractFootnotesLoop verseSet rest

/-- `Corpus.extractFootnotes`. -/
def extractFootnotes (chapter : Chapter) (verses : List Verse) : List Footnote :=
  match chapter.footnotes with
  | none => []
  | some fns => extractFootnotesLoop (verses.map (fun v => v.v)) fns

/-- The chapter number actually queried: `Resolve` substitutes 1 when the
reference carries the zero value. -/
def effectiveChapter (ref : BibleRef) : Int :=
  if ref.chapter = 0 then 1 else ref.chapter

/-- The out-of-range message built by `Resolve`
(`"chapter %d out of range for %s (1-%d)"`). -/
def chapterRangeMsg (chapter : Int) (book : Book) : String :=
  "chapter " ++ toString chapter ++ " out of range for " ++ book.name ++
    " (1-" ++ toString book.chapters ++ ")"

/-- `Corpus.Resolve`. -/
def Resolve (disk : String → Int → DiskResult) (c : Corpus) (ref : BibleRef) :
    Except CorpusError Resolved × Corpus :=
  if ref.osis = "" then
    (Except.error
      { kind := CorpusErrorKind.rangeError
        message := some "no book specified in reference"
        err := ErrTag.errUnknownBook }, c)
  else
    match alookup c.booksByID ref.osis with
    | none =>
      (Except.error
        { kind := CorpusErrorKind.rangeError
          message := some ("unknown book: " ++ ref.osis)
          err := ErrTag.errUnknownBook }, c)
    | some book =>
      let chapter := effectiveChapter ref
      if chapter < 1 ∨ chapter > book.chapters then
        (Except.error
          { kind := CorpusErrorKind.rangeError
            message := some (chapterRangeMsg chapter book)
            err := ErrTag.errChapterNotFound }, c)
      else
        match loadChapter disk c ref.osis chapter with
        | (Except.error e, c') => (Except.error e, c')
        | (Except.ok chapterData, c') =>
          let verses := extractVerses chapterData ref.verse
          let footnotes := extractFootnotes chapterData verses
          (Except.ok
            { ref := ref
              bookName := book.name
              chapter := chapterData
              verses := verses
              footnotes := footnotes }, c')

/-- The data of a `Resolved` other than the echoed reference (used to state
that a zero chapter behaves as chapter 1). -/
def resolvedData (r : Resolved) : String × Chapter × List Verse × List Footnote :=
  (r.bookName, r.chapter, r.verses, r.footnotes)

def resolveOutcome (x : Except CorpusError Resolved × Corpus) :
    Except CorpusError (String × Chapter × List Verse × List Footnote) × Corpus :=
  (x.1.map resolvedData, x.2)

/-! ## Lemmas about the resolver's extraction loops -/

theorem extractVersesLoop_eq_filter (s e : Int) (l : List Verse) :
    extractVersesLoop s e l = l.filter (fun v => decide (s ≤ v.v ∧ v.v ≤ e)) := by
  induction l with
  | nil => rfl
  | cons v rest ih =>
    by_cases h : s ≤ v.v ∧ v.v ≤ e <;> simp [extractVersesLoop, h, ih]

theorem extractFootnotesLoop_eq_filter (set : List Int) (l : List Footnote) :
    extractFootnotesLoop set l = l.filter (fun fn => set.contains fn.atV) := by
  induction l with
  | nil => rfl
  | cons fn rest ih =>
    by_cases h : set.contains fn.atV <;> simp_all [extractFootnotesLoop, h]

/-- Claim C2: with no verse range `extractVerses` returns all stored verses
in stored order; a start-only range selects exactly the stored verses whose
number equals the start; a start/end range selects exactly the stored verses
with number in `[start, end]`, keeping the stored order (hence ascending
whenever storage is ascending) and silently omitting absent numbers. -/
theorem c2_extractVerses_range_selection (ch : Chapter) :
    extractVerses ch none = ch.verses ∧
    (∀ a : Int, extractVerses ch (some ⟨a, none⟩) =
      ch.verses.filter (fun v => decide (v.v = a))) ∧
    (∀ a b : Int, extractVerses ch (some ⟨a, some b⟩) =
      ch.verses.filter (fun v => decide (a ≤ v.v ∧ v.v ≤ b))) ∧
    (∀ r : Option VerseRange,
      ch.verses.Pairwise (fun u w => u.v ≤ w.v) →
      (extractVerses ch r).Pairwise (fun u w => u.v ≤ w.v)) := by
  refine ⟨rfl, ?_, ?_, ?_⟩
  · intro a
    rw [show extractVerses ch (some ⟨a, none⟩) = extractVersesLoop a a ch.verses from rfl,
      extractVersesLoop_eq_filter]
    apply List.filter_congr
    intro v _
    simp only [decide_eq_decide]
    omega
  · intro a b
    rw [show extractVerses ch (some ⟨a, some b⟩) = extractVersesLoop a b ch.verses from rfl,
      extractVersesLoop_eq_filter]
  · intro r hsorted
    match r with
    | none => exact hsorted
    | some vr =>
      have : extractVerses ch (some vr) =
          ch.verses.filter (fun v =>
            decide (vr.startVerse ≤ v.v ∧ v.v ≤ (vr.endVerse.getD vr.startVerse))) := by
        cases h : vr.endVerse <;>
          simp [extractVerses, h, extractVersesLoop_eq_filter]
      rw [this]
      exact hsorted.sublist (List.filter_sublist _)

def c2Chapter : Chapter :=
  { schema := 1, work := "KJV", osis := "Luke", abbr := "LUK", chapter := 1
    verses := [⟨1, "a", []⟩, ⟨2, "b", []⟩, ⟨3, "c", []⟩, ⟨4, "d", []⟩, ⟨5, "e", []⟩]
    footnotes := none }

theorem c2_extractVerses_range_selection_witness :
    (extractVerses c2Chapter (some ⟨2, some 4⟩) =
      c2Chapter.verses.filter (fun v => decide (2 ≤ v.v ∧ v.v ≤ 4))) ∧
    (extractVerses c2Chapter (some ⟨2, some 4⟩)).Pairwise (fun u w => u.v ≤ w.v) :=
  ⟨(c2_extractVerses_range_selection c2Chapter).2.2.1 2 4,
   (c2_extractVerses_range_selection c2Chapter).2.2.2 (some ⟨2, some 4⟩) (by decide)⟩

/-- Claim C8: `extractFootnotes` returns exactly the chapter's footnotes
whose referenced verse number occurs among the selected verses' numbers,
preserving the chapter's footnote order (a filter of the stored list). -/
theorem c8_extractFootnotes_selection (ch : Chapter) (verses : List Verse) :
    extractFootnotes ch verses =
      (ch.footnotes.getD []).filter (fun fn => decide (fn.atV ∈ verses.map Verse.v)) := by
  match h : ch.footnotes with
  | none => simp [extractFootnotes, h]
  | some fns =>
    rw [show extractFootnotes ch verses =
        extractFootnotesLoop (verses.map Verse.v) fns by simp [extractFootnotes, h],
      extractFootnotesLoop_eq_filter]
    simp [h]

/-! ## Resolve: error paths and cache discipline -/

/-- Claim C4: `Resolve` rejects an empty book identifier with a RangeError
carrying "no book specified"; rejects an unknown identifier with a
RangeError carrying the identifier; defaults the chapter to 1 when the
reference supplies none (same outcome and same cache as an explicit
chapter 1, apart from the echoed reference); and rejects a chapter outside
`[1, book.Chapters]` with a RangeError whose message carries the valid
bound.  In each error case nothing but the error is returned. -/
theorem c4_resolve_error_paths (disk : String → Int → DiskResult)
    (c : Corpus) (ref : BibleRef) :
    (ref.osis = "" →
      Resolve disk c ref =
        (Except.error
          { kind := CorpusErrorKind.rangeError
            message := some "no book specified in reference"
            err := ErrTag.errUnknownBook }, c)) ∧
    (ref.osis ≠ "" → alookup c.booksByID ref.osis = none →
      Resolve disk c ref =
        (Except.error
          { kind := CorpusErrorKind.rangeError
            message := some ("unknown book: " ++ ref.osis)
            err := ErrTag.errUnknownBook }, c)) ∧
    (ref.chapter = 0 →
      resolveOutcome (Resolve disk c ref) =
        resolveOutcome (Resolve disk c { ref with chapter := 1 })) ∧
    (∀ book, ref.osis ≠ "" → alookup c.booksByID ref.osis = some book →
      (effectiveChapter ref < 1 ∨ book.chapters < effectiveChapter ref) →
      Resolve disk c ref =
        (Except.error
          { kind := CorpusErrorKind.rangeError
            message := some (chapterRangeMsg (effectiveChapter ref) book)
            err := ErrTag.errChapterNotFound }, c) ∧
      ∃ pre post,
        chapterRangeMsg (effectiveChapter ref) book =
          pre ++ toString book.chapters ++ post) := by
  refine ⟨?_, ?_, ?_, ?_⟩
  · intro h
    simp [Resolve, h]
  · intro h hbk
    simp [Resolve, h, hbk]
  · intro h
    by_cases hos : ref.osis = ""
    · simp [Resolve, hos]
    · have heff : effectiveChapter ref = 1 := by simp [effectiveChapter, h]
      have heff' : effectiveChapter { ref with chapter := 1 } = 1 := by
        simp [effectiveChapter]
      cases hbk : alookup c.booksByID ref.osis with
      | none => simp [Resolve, hos, hbk]
      | some book =>
        by_cases hr : (1 : Int) < 1 ∨ book.chapters < 1
        · have hc1 : book.chapters < 1 := by omega
          simp [Resolve, hos, hbk, heff, heff', hc1, resolveOutcome]
        · simp only [Resolve, hos, if_false, hbk, heff, heff']
          rw [if_neg (by omega), if_neg (by omega)]
          cases hld : loadChapter disk c ref.osis 1 with
          | mk res c' =>
            cases res <;> simp [resolveOutcome, resolvedData, Except.map]
  · intro book hos hbk hr
    constructor
    · simp only [Resolve, hos, if_false, hbk]
      rw [if_pos (by omega)]
    · exact ⟨"chapter " ++ toString (effectiveChapter ref) ++ " out of range for " ++
        book.name ++ " (1-", ")", rfl⟩

def bookGen : Book :=
  { osis := "Gen", name := "Genesis", aliases := [], testament := "OT"
    order := 1, chapters := 50 }

def chGen1 : Chapter :=
  { schema := 1, work := "KJV", osis := "Gen", abbr := "GEN", chapter := 1
    verses := [⟨1, "In the beginning", [⟨"In the beginning", "", ""⟩]⟩, ⟨2, "x", []⟩]
    footnotes := some [⟨"FN1", "*", 1, "note one"⟩, ⟨"FN2", "+", 2, "note two"⟩] }

def corpus0 : Corpus :=
  { root := "canon/kjv", booksByID := [("Gen", bookGen)], chapters := [] }

def disk0 : String → Int → DiskResult := fun _ _ => DiskResult.ok chGen1

theorem c4_resolve_error_paths_witness :
    (Resolve disk0 corpus0 ⟨"", 0, none⟩ =
      (Except.error
        { kind := CorpusErrorKind.rangeError
          message := some "no book specified in reference"
          err := ErrTag.errUnknownBook }, corpus0)) ∧
    (Resolve disk0 corpus0 ⟨"Xyz", 1, none⟩ =
      (Except.error
        { kind := CorpusErrorKind.rangeError
          message := some ("unknown book: " ++ "Xyz")
          err := ErrTag.errUnknownBook }, corpus0)) ∧
    (resolveOutcome (Resolve disk0 corpus0 ⟨"Gen", 0, none⟩) =
      resolveOutcome (Resolve disk0 corpus0 ⟨"Gen", 1, none⟩)) ∧
    (Resolve disk0 corpus0 ⟨"Gen", 999, none⟩ =
      (Except.error
        { kind := CorpusErrorKind.rangeError
          message := some (chapterRangeMsg 999 bookGen)
          err := ErrTag.errChapterNotFound }, corpus0)) :=
  ⟨(c4_resolve_error_paths disk0 corpus0 ⟨"", 0, none⟩).1 rfl,
   (c4_resolve_error_paths disk0 corpus0 ⟨"Xyz", 1, none⟩).2.1 (by decide) (by decide),
   (c4_resolve_error_paths disk0 corpus0 ⟨"Gen", 0, none⟩).2.2.1 rfl,
   ((c4_resolve_error_paths disk0 corpus0 ⟨"Gen", 999, none⟩).2.2.2 bookGen
      (by decide) (by decide) (by right; decide)).1⟩

/-- Fresh cache inserts preserve all existing cache bindings. -/
theorem alookup_cons_of_fresh {α : Type} (l : List (String × α)) (k k' : String)
    (v : α) (w : α) (hfresh : alookup l k = none) (h : alookup l k' = some w) :
    alookup ((k, v) :: l) k' = some w := by
  have hne : k ≠ k' := by
    intro he
    rw [he, h] at hfresh
    exact Option.noConfusion hfresh
  simp only [alookup, List.find?]
  rw [show (decide ((k, v).1 = k')) = false by simp [hne]]
  exact h

theorem loadChapter_cache (disk : String → Int → DiskResult) (c : Corpus)
    (osis : String) (chapter : Int) :
    (∀ e c', loadChapter disk c osis chapter = (Except.error e, c') → c' = c) ∧
    (∀ ch c', loadChapter disk c osis chapter = (Except.ok ch, c') →
      c' = c ∨ ∃ k, alookup c.chapters k = none ∧
        c' = { c with chapters := (k, ch) :: c.chapters }) := by
  constructor
  · intro e c' h
    simp only [loadChapter] at h
    cases hc : alookup c.chapters (cacheKey osis chapter) with
    | some ch =>
      rw [hc] at h
      have := congrArg Prod.fst h
      simp at this
    | none =>
      rw [hc] at h
      cases hd : disk osis chapter <;> rw [hd] at h
      · exact (congrArg Prod.snd h).symm
      · exact (congrArg Prod.snd h).symm
      · have := congrArg Prod.fst h
        simp at this
  · intro ch c' h
    simp only [loadChapter] at h
    cases hc : alookup c.chapters (cacheKey osis chapter) with
    | some ch₀ =>
      rw [hc] at h
      exact Or.inl (congrArg Prod.snd h).symm
    | none =>
      rw [hc] at h
      cases hd : disk osis chapter <;> rw [hd] at h
      · have := congrArg Prod.fst h
        simp at this
      · have := congrArg Prod.fst h
        simp at this
      · rename_i ch₁
        have h1 : (Except.ok ch₁ : Except CorpusError Chapter) = Except.ok ch :=
          congrArg Prod.fst h
        have hch : ch₁ = ch := by injection h1
        refine Or.inr ⟨cacheKey osis chapter, hc, ?_⟩
        have h2 : ({ c with chapters := (cacheKey osis chapter, ch₁) :: c.chapters } : Corpus) = c' :=
          congrArg Prod.snd h
        rw [← h2, hch]

theorem resolve_cases (disk : String → Int → DiskResult) (c : Corpus) (ref : BibleRef) :
    (∃ e, Resolve disk c ref = (Except.error e, c)) ∨
    (∃ r, Resolve disk c ref = (Except.ok r, c)) ∨
    (∃ r k ch, alookup c.chapters k = none ∧
      Resolve disk c ref = (Except.ok r, { c with chapters := (k, ch) :: c.chapters })) := by
  by_cases hos : ref.osis = ""
  · exact Or.inl ⟨CorpusError.mk CorpusErrorKind.rangeError
      (some "no book specified in reference") ErrTag.errUnknownBook, by simp [Resolve, hos]⟩
  cases hbk : alookup c.booksByID ref.osis with
  | none =>
    exact Or.inl ⟨CorpusError.mk CorpusErrorKind.rangeError
      (some ("unknown book: " ++ ref.osis)) ErrTag.errUnknownBook, by simp [Resolve, hos, hbk]⟩
  | some book =>
    by_cases hr : effectiveChapter ref < 1 ∨ book.chapters < effectiveChapter ref
    · refine Or.inl ⟨CorpusError.mk CorpusErrorKind.rangeError
        (some (chapterRangeMsg (effectiveChapter ref) book)) ErrTag.errChapterNotFound, ?_⟩
      simp only [Resolve, hos, if_false, hbk]
      rw [if_pos (by omega)]
    · cases hld : loadChapter disk c ref.osis (effectiveChapter ref) with
      | mk res c₂ =>
        have hres : Resolve disk c ref =
            match (res, c₂) with
            | (Except.error e, c') => (Except.error e, c')
            | (Except.ok chapterData, c') =>
              (Except.ok
                { ref := ref
                  bookName := book.name
                  chapter := chapterData
                  verses := extractVerses chapterData ref.verse
                  footnotes := extractFootnotes chapterData
                    (extractVerses chapterData ref.verse) }, c') := by
          simp only [Resolve, hos, if_false, hbk]
          rw [if_neg (by omega), hld]
        cases res with
        | error e =>
          have hc₂ : c₂ = c := (loadChapter_cache disk c ref.osis (effectiveChapter ref)).1 e c₂ hld
          exact Or.inl ⟨e, by rw [hres, hc₂]⟩
        | ok chd =>
          rcases (loadChapter_cache disk c ref.osis (effectiveChapter ref)).2 chd c₂ hld with
            hc₂ | ⟨k, hk, hc₂⟩
          · exact Or.inr (Or.inl ⟨_, by rw [hres, hc₂]⟩)
          · exact Or.inr (Or.inr ⟨_, k, chd, hk, by rw [hres, hc₂]⟩)

/-- Claim C5: a failing `Resolve` leaves the chapter cache exactly as it
was; a successful one leaves it unchanged (cache hit) or with exactly one
additional entry whose key was previously absent; existing cache bindings
are never mutated or replaced. -/
theorem c5_resolve_cache_consistent (disk : String → Int → DiskResult)
    (c : Corpus) (ref : BibleRef) :
    (∀ e c', Resolve disk c ref = (Except.error e, c') → c'.chapters = c.chapters) ∧
    (∀ r c', Resolve disk c ref = (Except.ok r, c') →
      c'.chapters = c.chapters ∨
      ∃ k ch, alookup c.chapters k = none ∧ c'.chapters = (k, ch) :: c.chapters) ∧
    (∀ k v, alookup c.chapters k = some v →
      alookup (Resolve disk c ref).2.chapters k = some v) := by
  rcases resolve_cases disk c ref with ⟨e₀, heq⟩ | ⟨r₀, heq⟩ | ⟨r₀, k₀, ch₀, hk₀, heq⟩
  · refine ⟨?_, ?_, ?_⟩
    · intro e c' h
      rw [heq] at h
      exact (congrArg (fun x => (Prod.snd x).chapters) h).symm
    · intro r c' h
      rw [heq] at h
      exact absurd (congrArg Prod.fst h) (by simp)
    · intro k v hkv
      rw [heq]
      exact hkv
  · refine ⟨?_, ?_, ?_⟩
    · intro e c' h
      rw [heq] at h
      exact absurd (congrArg Prod.fst h) (by simp)
    · intro r c' h
      rw [heq] at h
      exact Or.inl (congrArg (fun x => (Prod.snd x).chapters) h).symm
    · intro k v hkv
      rw [heq]
      exact hkv
  · refine ⟨?_, ?_, ?_⟩
    · intro e c' h
      rw [heq] at h
      exact absurd (congrArg Prod.fst h) (by simp)
    · intro r c' h
      rw [heq] at h
      refine Or.inr ⟨k₀, ch₀, hk₀, ?_⟩
      exact (congrArg (fun x => (Prod.snd x).chapters) h).symm
    · intro k v hkv
      rw [heq]
      exact alookup_cons_of_fresh c.chapters k₀ k ch₀ v hk₀ hkv

def refGen1 : BibleRef := ⟨"Gen", 1, none⟩

def corpusAfter : Corpus :=
  { root := "canon/kjv", booksByID := [("Gen", bookGen)]
    chapters := [("Gen:1", chGen1)] }

def resolved0 : Resolved :=
  { ref := refGen1, bookName := "Genesis", chapter := chGen1
    verses := chGen1.verses
    footnotes := [⟨"FN1", "*", 1, "note one"⟩, ⟨"FN2", "+", 2, "note two"⟩] }

theorem c5_resolve_cache_consistent_witness :
    (corpusAfter.chapters = corpus0.chapters ∨
      ∃ k ch, alookup corpus0.chapters k = none ∧
        corpusAfter.chapters = (k, ch) :: corpus0.chapters) ∧
    alookup (Resolve disk0 corpusAfter refGen1).2.chapters "Gen:1" = some chGen1 :=
  ⟨(c5_resolve_cache_consistent disk0 corpus0 refGen1).2.1 resolved0 corpusAfter (by rfl),
   (c5_resolve_cache_consistent disk0 corpusAfter refGen1).2.2 "Gen:1" chGen1 (by rfl)⟩

/-! ## Ingest tool: metadata, filename parsing and the chapter validator -/

/-- `util.BookMetadata` (books.json entry). -/
structure BookMetadata where
  osis : String
  abbr : String
  name : String
  aliases : List String
  testament : String
  order : Int
  chapters : Int
deriving Repr, DecidableEq

/-- `util.ExtractedVerse`: raw verse data from HTML. -/
structure ExtractedVerse where
  number : Int
  plain : String
  tokens : List Token
deriving Repr, DecidableEq

/-- `util.ExtractedFootnote`. -/
structure ExtractedFootnote where
  id : String
  mark : String
  verseNum : Int
  text : String
deriving Repr, DecidableEq

/-- `util.ExtractedChapter`. -/
structure ExtractedChapter where
  chapterNumber : Int
  verses : List ExtractedVerse
  footnotes : List ExtractedFootnote
  sourceFile : String
deriving Repr, DecidableEq

/-- `util.ValidationError`.  The Go `Expected`/`Actual` fields hold
`interface{}` values; we model them by their `%v` rendering. -/
structure ValidationError where
  file : String
  type : String
  message : String
  expected : Option String
  actual : Option String
deriving Repr, DecidableEq

/-- `MetadataLoader.GetBookByAbbr`: lookup in the `BooksByAbbr` map, which is
built by inserting the books in order (later duplicates overwrite), hence
the lookup takes the last matching entry. -/
def getBookByAbbr (books : List BookMetadata) (abbr : String) : Option BookMetadata :=
  books.reverse.find? (fun b => b.abbr = abbr)

/-- Result of `parseFilename`: a parsed pair, a Go `error`, or a runtime
panic (the dead prefix computation `base[:digitEndIdx-len(base)+digitEndIdx]`
slices with a negative bound whenever the trailing digit run is longer than
the part before it). -/
inductive ParseFilenameResult where
  | ok (abbr : String) (chapter : Int)
  | err (msg : String)
  | panicked
deriving Repr, DecidableEq

/-- `strings.TrimSuffix(filename, ".htm")` on the character list. -/
def stripHtm (cs : List Char) : List Char :=
  if ['.', 'h', 't', 'm'].isSuffixOf cs then cs.take (cs.length - 4) else cs

/-- The first index `i ≥ 1` with a non-digit at `i-1` and a digit at `i`
(the split-point search loop of `parseFilename`). -/
def findTransitionAux (prev : Char) : List Char → Nat → Option Nat
  | [], _ => none
  | c :: rest, i =>
    if ¬ isDigitChar prev ∧ isDigitChar c then some i
    else findTransitionAux c rest (i + 1)

def findTransition : List Char → Option Nat
  | [] => none
  | b :: rest => findTransitionAux b rest 1

/-- The `digitEndIdx` computed by `parseFilename`'s backwards scan: the index
one past the last non-digit, or `len(base)` when the scan never breaks
(all digits). -/
def digitEndIdxOf (bs : List Char) : Nat :=
  if (bs.reverse.takeWhile isDigitChar).length = bs.length then bs.length
  else bs.length - (bs.reverse.takeWhile isDigitChar).length

/-- `Validator.parseFilename` on the stripped base.  The length guard, the
dead prefix computation (which can panic), the transition search, `Atoi`
and the alphanumeric check are all mirrored from the source. -/
def parseFilenameCore (bs : List Char) (filename : String) : ParseFilenameResult :=
  if bs.length < 4 then
    ParseFilenameResult.err ("filename too short: " ++ filename)
  else
    if 2 * (digitEndIdxOf bs : Int) - (bs.length : Int) < 0 then ParseFilenameResult.panicked
    else if 2 * (digitEndIdxOf bs : Int) - (bs.length : Int) = (bs.length : Int) then
      ParseFilenameResult.err ("no chapter number in filename: " ++ filename)
    else
      match findTransition bs with
      | none =>
        if bs.all isDigitChar then
          ParseFilenameResult.err ("no book abbreviation in filename: " ++ filename)
        else
          ParseFilenameResult.err ("no chapter number found in filename: " ++ filename)
      | some i =>
        let abbr2 := bs.take i
        let chapStr := bs.drop i
        match atoi (String.mk chapStr) with
        | none =>
          ParseFilenameResult.err ("invalid chapter number in " ++ filename ++ ": " ++
            String.mk chapStr)
        | some chapter =>
          if abbr2.all isAlnumChar then
            ParseFilenameResult.ok (String.mk (abbr2.map upChar)) chapter
          else
            ParseFilenameResult.err ("invalid characters in book abbreviation: " ++
              String.mk abbr2)

def parseFilename (filename : String) : ParseFilenameResult :=
  parseFilenameCore (stripHtm filename.toList) filename

/-- `Validator.validateVersesContinuous`, gap loop: each verse number must
equal its predecessor plus one. -/
def gapErrors (filename : String) (prev : Int) : List ExtractedVerse → List ValidationError
  | [] => []
  | v :: rest =>
    (if v.number ≠ prev + 1 then
      [{ file := filename, type := "verses"
         message := "gap in verse numbers: expected " ++ toString (prev + 1) ++
           ", got " ++ toString v.number
         expected := some (toString (prev + 1)), actual := some (toString v.number) }]
    else []) ++ gapErrors filename v.number rest

def validateVersesContinuous (filename : String) (ec : ExtractedChapter) :
    List ValidationError :=
  match ec.verses with
  | [] =>
    [{ file := filename, type := "verses", message := "no verses found in chapter"
       expected := none, actual := none }]
  | v₀ :: rest =>
    (if v₀.number ≠ 1 then
      [{ file := filename, type := "verses", message := "verses do not start at 1"
         expected := some "1", actual := some (toString v₀.number) }]
    else []) ++ gapErrors filename v₀.number rest

/-- The per-footnote checks of `Validator.validateFootnoteResolution`, in
source order. -/
def footnoteErrors (filename : String) (verses : List ExtractedVerse)
    (fn : ExtractedFootnote) : List ValidationError :=
  (if fn.id = "" then
    [{ file := filename, type := "footnotes", message := "footnote has empty ID"
       expected := none, actual := none }]
  else []) ++
  (if fn.mark = "" then
    [{ file := filename, type := "footnotes"
       message := "footnote " ++ fn.id ++ " has empty mark"
       expected := none, actual := none }]
  else []) ++
  (if fn.verseNum < 1 then
    [{ file := filename, type := "footnotes"
       message := "footnote " ++ fn.id ++ " references invalid verse number " ++
         toString fn.verseNum
       expected := some ">= 1", actual := some (toString fn.verseNum) }]
  else []) ++
  (if fn.text = "" then
    [{ file := filename, type := "footnotes"
       message := "footnote " ++ fn.id ++ " has empty text"
       expected := none, actual := none }]
  else []) ++
  (if verses.any (fun v => v.number = fn.verseNum) then []
  else
    [{ file := filename, type := "footnotes"
       message := "footnote " ++ fn.id ++ " references verse " ++ toString fn.verseNum ++
         " that doesn't exist in chapter"
       expected := some "verse number in range 1..N", actual := some (toString fn.verseNum) }])

def validateFootnoteResolution (filename : String) (ec : ExtractedChapter) :
    List ValidationError :=
  (ec.footnotes.map (footnoteErrors filename ec.verses)).join

/-- `Validator.ValidateChapterFile`.  Returns `none` when `parseFilename`
panics (which aborts the Go process), otherwise the accumulated error
list. -/
def validateChapterFile (books : List BookMetadata) (filename : String)
    (ec : ExtractedChapter) : Option (List ValidationError) :=
  match parseFilename filename with
  | ParseFilenameResult.panicked => none
  | ParseFilenameResult.err msg =>
    some [{ file := filename, type := "filename", message := msg
            expected := none, actual := none }]
  | ParseFilenameResult.ok abbr chapterFromFilename =>
    match getBookByAbbr books abbr with
    | none =>
      some [{ file := filename, type := "filename"
              message := "unknown book abbreviation: " ++ abbr
              expected := none, actual := some abbr }]
    | some book =>
      let labelErrs :=
        if chapterFromFilename ≠ ec.chapterNumber then
          [{ file := filename, type := "label"
             message := "chapter number mismatch between filename and <div class='chapterlabel'>"
             expected := some (toString chapterFromFilename)
             actual := some (toString ec.chapterNumber) }]
        else []
      let rangeErrs :=
        if chapterFromFilename < 0 ∨ book.chapters < chapterFromFilename then
          [{ file := filename, type := "range"
             message := "chapter number " ++ toString chapterFromFilename ++
               " exceeds expected maximum " ++ toString book.chapters
             expected := some ("1-" ++ toString book.chapters)
             actual := some (toString chapterFromFilename) }]
        else []
      some (labelErrs ++ rangeErrs ++ validateVersesContinuous filename ec ++
        validateFootnoteResolution filename ec)

/-- `Processor.extractedToChapter` (the `tools/ingest` variant writing
schema 1): merge extracted data with book metadata; the footnote field is
omitted entirely when there are no footnotes. -/
def extractedToChapter (work : String) (book : BookMetadata)
    (ec : ExtractedChapter) : Chapter :=
  { schema := 1
    work := work
    osis := book.osis
    abbr := book.abbr
    chapter := ec.chapterNumber
    verses := ec.verses.map (fun ev => { v := ev.number, plain := ev.plain, tokens := ev.tokens })
    footnotes :=
      if 0 < ec.footnotes.length then
        some (ec.footnotes.map (fun efn =>
          { id := efn.id, mark := efn.mark, atV := efn.verseNum, text := efn.text }))
      else none }

/-- The per-chapter-file step of `Processor.ProcessBook`: validate, and
write the built chapter to canonical output exactly when the validator
reports no errors.  `some ch` means `ch` was written; `none` means the file
was skipped (or the process panicked inside `parseFilename`). -/
def processChapterStep (books : List BookMetadata) (work : String)
    (book : BookMetadata) (filename : String) (ec : ExtractedChapter) :
    Option Chapter :=
  match validateChapterFile books filename ec with
  | none => none
  | some errs => if errs = [] then some (extractedToChapter work book ec) else none

/-! ## C6 and C7: filename-derived checks -/

def metaGen : List BookMetadata :=
  [{ osis := "Gen", abbr := "GEN", name := "Genesis", aliases := []
     testament := "OT", order := 1, chapters := 50 }]

def ec6 : ExtractedChapter :=
  { chapterNumber := 0
    verses := [{ number := 1, plain := "x", tokens := [⟨"x", "", ""⟩] }]
    footnotes := []
    sourceFile := "GEN0.htm" }

/-- Claim C6: for the file `GEN0.htm` the filename-derived chapter number is
0, which lies outside `[1, 50]`, yet `ValidateChapterFile` returns no error
at all — in particular no "range" error — because its bound check reads
`chapterFromFilename < 0` instead of `< 1` (its own error metadata says the
expected range is `1-50`). -/
theorem c6_chapter_zero_escapes_range_check :
    parseFilename "GEN0.htm" = ParseFilenameResult.ok "GEN" 0 ∧
    ¬ (1 ≤ (0 : Int) ∧ (0 : Int) ≤ 50) ∧
    validateChapterFile metaGen "GEN0.htm" ec6 = some [] := by
  refine ⟨by decide, by omega, by decide⟩

/-- Claim C7 counterexample: three filenames of the claimed form
`<alphanumerics><trailing digit run>.htm` on which `parseFilename` does not
return the uppercased prefix and the trailing run: a 3-character base is
rejected as too short, a digit run longer than the prefix makes the dead
prefix slice panic, and an interior non-digit→digit transition makes `Atoi`
fail. -/
theorem c7_parseFilename_counterexample :
    (parseFilename "AB1.htm" = ParseFilenameResult.err "filename too short: AB1.htm" ∧
      parseFilename "AB1.htm" ≠ ParseFilenameResult.ok "AB" 1) ∧
    (parseFilename "AB123.htm" = ParseFilenameResult.panicked ∧
      parseFilename "AB123.htm" ≠ ParseFilenameResult.ok "AB" 123) ∧
    (parseFilename "AB1C23.htm" =
        ParseFilenameResult.err "invalid chapter number in AB1C23.htm: 1C23" ∧
      parseFilename "AB1C23.htm" ≠ ParseFilenameResult.ok "AB1C" 23) := by
  refine ⟨⟨by decide, by decide⟩, ⟨by decide, by decide⟩, ⟨by decide, by decide⟩⟩

theorem takeWhile_append_stop (p : Char → Bool) (xs ys : List Char)
    (hxs : ∀ x ∈ xs, p x = true)
    (hhd : ∀ y, ys.head? = some y → p y = false) :
    (xs ++ ys).takeWhile p = xs := by
  induction xs with
  | nil =>
    cases ys with
    | nil => rfl
    | cons y t =>
      simp only [List.nil_append, List.takeWhile]
      rw [hhd y rfl]
  | cons x t ih =>
    have hx : p x = true := hxs x (List.mem_cons_self x t)
    simp only [List.cons_append, List.takeWhile, hx]
    exact congrArg (fun l => x :: l) (ih (fun z hz => hxs z (List.mem_cons_of_mem x hz)))

theorem findTransitionAux_spec (prev : Char) (xs ys : List Char) (i : Nat)
    (hchain : List.Chain' (fun a b => isDigitChar b = true → isDigitChar a = true)
      (prev :: xs))
    (hlast : ∀ z, (prev :: xs).getLast? = some z → isDigitChar z = false)
    (hys : ys ≠ []) (hall : ∀ y ∈ ys, isDigitChar y = true) :
    findTransitionAux prev (xs ++ ys) i = some (i + xs.length) := by
  induction xs generalizing prev i with
  | nil =>
    cases ys with
    | nil => exact absurd rfl hys
    | cons y t =>
      have hprev : isDigitChar prev = false := hlast prev (by simp)
      have hy : isDigitChar y = true := hall y (List.mem_cons_self y t)
      simp [findTransitionAux, hprev, hy]
  | cons x t ih =>
    have hcond : ¬ (¬ isDigitChar prev = true ∧ isDigitChar x = true) := by
      intro ⟨h1, h2⟩
      exact h1 ((List.chain'_cons.mp hchain).1 h2)
    simp only [List.cons_append, findTransitionAux, if_neg hcond]
    have hrec := ih x (i + 1) (List.chain'_cons.mp hchain).2
      (fun z hz => hlast z (by rw [List.getLast?_cons_cons]; exact hz))
    rw [show i + (x :: t).length = i + 1 + t.length by simp only [List.length_cons]; omega]
    exact hrec

theorem atoi_digits (ds : List Char) (hne : ds ≠ [])
    (hall : ds.all isDigitChar = true)
    (hle : (digitsVal ds : Int) ≤ 2 ^ 63 - 1) :
    atoi (String.mk ds) = some ((digitsVal ds : Int)) := by
  obtain ⟨c₀, t, rfl⟩ := List.exists_cons_of_ne_nil hne
  have hd₀ : isDigitChar c₀ = true := by
    simp only [List.all_cons, Bool.and_eq_true] at hall
    exact hall.1
  have h1 : ¬ c₀ = '-' := by
    intro h
    rw [h] at hd₀
    exact absurd hd₀ (by decide)
  have h2 : ¬ c₀ = '+' := by
    intro h
    rw [h] at hd₀
    exact absurd hd₀ (by decide)
  have hcond : ¬ ((c₀ :: t : List Char) = [] ∨ ¬ (c₀ :: t).all isDigitChar) := by
    simp [hall]
  simp only [atoi, String.toList, if_neg h1, if_neg h2]
  rw [if_neg hcond, if_pos ?hrange]
  · simp
  case hrange =>
    constructor
    · have : (0 : Int) ≤ (digitsVal (c₀ :: t) : Int) := Int.ofNat_nonneg _
      omega
    · exact hle

/-- Claim C7, amended: `parseFilename` returns the uppercased alphanumeric
prefix and the parsed trailing digit run for filenames `<prefix><digits>.htm`
whose base is at least 4 characters long, whose digit run is no longer than
the prefix (otherwise the dead prefix slice panics), whose prefix contains
no non-digit immediately followed by a digit (otherwise the split happens at
that earlier transition and `Atoi` fails), and whose digit value fits a
64-bit integer.  Unparseable filenames and unknown abbreviations make
`ValidateChapterFile` return exactly one "filename" error, skipping every
other check. -/
theorem c7_parseFilename_amended
    (pre digits : List Char) (c : Char)
    (hpre : pre.all isAlnumChar = true)
    (hlast : pre.getLast? = some c)
    (hcd : isDigitChar c = false)
    (hdig : digits ≠ [])
    (hdigall : ∀ y ∈ digits, isDigitChar y = true)
    (hlen : 4 ≤ pre.length + digits.length)
    (hbal : digits.length ≤ pre.length)
    (htrans : List.Chain' (fun a b => isDigitChar b = true → isDigitChar a = true) pre)
    (hrange : (digitsVal digits : Int) ≤ 2 ^ 63 - 1) :
    parseFilename (String.mk (pre ++ digits) ++ ".htm") =
      ParseFilenameResult.ok (String.mk (pre.map upChar)) ((digitsVal digits : Int)) ∧
    (∀ (filename msg : String) (books : List BookMetadata) (ec : ExtractedChapter),
      parseFilename filename = ParseFilenameResult.err msg →
      validateChapterFile books filename ec =
        some [{ file := filename, type := "filename", message := msg
                expected := none, actual := none }]) ∧
    (∀ (filename abbr : String) (ch : Int) (books : List BookMetadata)
        (ec : ExtractedChapter),
      parseFilename filename = ParseFilenameResult.ok abbr ch →
      getBookByAbbr books abbr = none →
      validateChapterFile books filename ec =
        some [{ file := filename, type := "filename"
                message := "unknown book abbreviation: " ++ abbr
                expected := none, actual := some abbr }]) := by
  have hprene : pre ≠ [] := by
    intro h
    rw [h] at hlast
    exact Option.noConfusion hlast
  have hpl : 0 < pre.length := List.length_pos.mpr hprene
  have hdl : 0 < digits.length := List.length_pos.mpr hdig
  refine ⟨?_, ?_, ?_⟩
  · -- the parse of a well-shaped filename
    have htw : ((pre ++ digits).reverse.takeWhile isDigitChar) = digits.reverse := by
      rw [List.reverse_append]
      refine takeWhile_append_stop _ _ _ ?_ ?_
      · intro x hx
        exact hdigall x (List.mem_reverse.mp hx)
      · intro y hy
        rw [List.head?_reverse, hlast] at hy
        cases hy
        exact hcd
    have htwlen : ((pre ++ digits).reverse.takeWhile isDigitChar).length = digits.length := by
      rw [htw, List.length_reverse]
    have hdei : digitEndIdxOf (pre ++ digits) = pre.length := by
      unfold digitEndIdxOf
      rw [htwlen, if_neg (by simp only [List.length_append]; omega)]
      simp only [List.length_append]
      omega
    have hstrip : stripHtm ((pre ++ digits) ++ ['.', 'h', 't', 'm']) = pre ++ digits := by
      unfold stripHtm
      rw [if_pos (List.isSuffixOf_iff_suffix.mpr (List.suffix_append _ _)),
        show ((pre ++ digits) ++ ['.', 'h', 't', 'm']).length - 4 = (pre ++ digits).length by
          simp only [List.length_append, List.length_cons, List.length_nil]; omega,
        List.take_left]
    have hft : findTransition (pre ++ digits) = some pre.length := by
      obtain ⟨p₀, pt, rfl⟩ := List.exists_cons_of_ne_nil hprene
      show findTransitionAux p₀ (pt ++ digits) 1 = some (p₀ :: pt).length
      rw [findTransitionAux_spec p₀ pt digits 1 htrans
        (fun z hz => by rw [hlast] at hz; cases hz; exact hcd) hdig hdigall]
      rw [show (1 : Nat) + pt.length = (p₀ :: pt).length by
        simp only [List.length_cons]; omega]
    show parseFilenameCore (stripHtm (String.mk (pre ++ digits) ++ ".htm").toList) _ =
      ParseFilenameResult.ok _ _
    rw [show (String.mk (pre ++ digits) ++ ".htm").toList =
        (pre ++ digits) ++ ['.', 'h', 't', 'm'] from rfl, hstrip]
    unfold parseFilenameCore
    rw [if_neg (by simp only [List.length_append]; omega), hdei,
      if_neg (by simp only [List.length_append]; push_cast; omega),
      if_neg (by simp only [List.length_append]; push_cast; omega)]
    simp only [hft]
    rw [List.take_left, List.drop_left]
    simp only [atoi_digits digits hdig (List.all_eq_true.mpr hdigall) hrange]
    simp [hpre]
  · -- unparseable filename: one "filename" error, nothing else checked
    intro filename msg books ec h
    simp [validateChapterFile, h]
  · -- unknown abbreviation: one "filename" error, nothing else checked
    intro filename abbr ch books ec h hbk
    simp [validateChapterFile, h, hbk]

theorem proChain :
    List.Chain' (fun a b => isDigitChar b = true → isDigitChar a = true)
      ['P', 'R', 'O'] := by
  refine List.chain'_cons.mpr ⟨?_, List.chain'_cons.mpr ⟨?_, List.chain'_singleton _⟩⟩
  · intro h
    exact absurd h (by decide)
  · intro h
    exact absurd h (by decide)

theorem c7_parseFilename_amended_witness :
    parseFilename (String.mk (['P', 'R', 'O'] ++ ['0', '1']) ++ ".htm") =
      ParseFilenameResult.ok (String.mk (['P', 'R', 'O'].map upChar))
        ((digitsVal ['0', '1'] : Int)) ∧
    validateChapterFile metaGen "AB1.htm" ec6 =
      some [{ file := "AB1.htm", type := "filename"
              message := "filename too short: AB1.htm"
              expected := none, actual := none }] :=
  ⟨(c7_parseFilename_amended ['P', 'R', 'O'] ['0', '1'] 'O' (by decide) (by decide)
      (by decide) (by decide) (by decide) (by decide) (by decide) proChain
      (by decide)).1,
   (c7_parseFilename_amended ['P', 'R', 'O'] ['0', '1'] 'O' (by decide) (by decide)
      (by decide) (by decide) (by decide) (by decide) (by decide) proChain
      (by decide)).2.1 "AB1.htm" "filename too short: AB1.htm" metaGen ec6 (by decide)⟩

/-! ## Verify tool (`tools/verify`): per-file chapter validation -/

/-- `flatten` from the verify tool: concatenate every token's three fields,
collapse whitespace runs (`\s+` → `" "`) and trim — note it does NOT decode
HTML entities, despite its comment. -/
def flatten (tokens : List Token) : String :=
  String.mk (goTrim (collapseWS
    (tokens.foldl (fun acc t => acc ++ t.text.toList ++ t.add.toList ++ t.nd.toList) [])))

/-- `validateVerse` of the verify tool (minus the `Tokens == nil` check,
which a `List`-valued field cannot exhibit): verse number positive and
contiguous, plain non-empty, and the round-trip `flatten(tokens) == plain`. -/
def verifyValidateVerse (verse : Verse) (previousNum : Int) : Option String :=
  if verse.v ≤ 0 then some "invalid or missing verse number"
  else if verse.v ≠ previousNum + 1 then
    some ("non-contiguous verse numbers: expected " ++ toString (previousNum + 1) ++
      ", got " ++ toString verse.v)
  else if verse.plain = "" then some "missing plain field in verse"
  else if flatten verse.tokens ≠ verse.plain then
    some "plain text does not match concatenated tokens"
  else none

/-- `validateVerseBasic` (used for the book `Add Esth`): same checks without
the contiguity requirement. -/
def verifyValidateVerseBasic (verse : Verse) : Option String :=
  if verse.v ≤ 0 then some "invalid or missing verse number"
  else if verse.plain = "" then some "missing plain field in verse"
  else if flatten verse.tokens ≠ verse.plain then
    some "plain text does not match concatenated tokens"
  else none

/-- The verse loop of the verify tool's `validateChapterFile`: first error
wins; `Add Esth` skips the contiguity tracking. -/
def verifyVerseLoop (osis : String) (previousNum : Int) : List Verse → Option String
  | [] => none
  | v :: rest =>
    if osis = "Add Esth" then
      match verifyValidateVerseBasic v with
      | some e => some e
      | none => verifyVerseLoop osis previousNum rest
    else
      match verifyValidateVerse v previousNum with
      | some e => some e
      | none => verifyVerseLoop osis v.v rest

/-- The footnote loop of the verify tool's `validateFootnotes`: every
footnote must reference an existing verse and ids must be unique. -/
def verifyFootnotesLoop (validVerses : List Int) (seen : List String) :
    List Footnote → Option String
  | [] => none
  | fn :: rest =>
    if ¬ validVerses.contains fn.atV then
      some ("footnote " ++ fn.id ++ " references non-existent verse " ++ toString fn.atV)
    else if seen.contains fn.id then
      some ("duplicate footnote ID: " ++ fn.id)
    else verifyFootnotesLoop validVerses (fn.id :: seen) rest

def verifyValidateFootnotes (footnotes : List Footnote) (verses : List Verse) :
    Option String :=
  verifyFootnotesLoop (verses.map (fun v => v.v)) [] footnotes

/-- `validateChapterFile` of the verify tool, on an already-unmarshalled
chapter (the read/parse step is outside this model; the `Verses == nil`
check is likewise unrepresentable over a `List`-valued field). -/
def verifyChapterFile (ch : Chapter) : Except String Chapter :=
  if ch.schema ≠ 1 then Except.error "invalid or missing schema version"
  else
    match verifyVerseLoop ch.osis 0 ch.verses with
    | some e => Except.error ("verse validation failed: " ++ e)
    | none =>
      match ch.footnotes with
      | some fns =>
        match verifyValidateFootnotes fns ch.verses with
        | some e => Except.error ("footnote validation failed: " ++ e)
        | none =>
          if ch.work = "" ∨ ch.osis = "" ∨ ch.abbr = "" then
            Except.error "missing required metadata fields"
          else if ch.chapter < 1 then
            Except.error ("invalid chapter number: expected >= 1, got " ++
              toString ch.chapter)
          else Except.ok ch
      | none =>
        if ch.work = "" ∨ ch.osis = "" ∨ ch.abbr = "" then
          Except.error "missing required metadata fields"
        else if ch.chapter < 1 then
          Except.error ("invalid chapter number: expected >= 1, got " ++
            toString ch.chapter)
        else Except.ok ch

theorem verifyVerseLoop_ok_roundtrip (osis : String) (previousNum : Int)
    (verses : List Verse) (h : verifyVerseLoop osis previousNum verses = none) :
    ∀ v ∈ verses, flatten v.tokens = v.plain := by
  induction verses generalizing previousNum with
  | nil => intro v hv; cases hv
  | cons v₀ rest ih =>
    intro v hv
    by_cases hos : osis = "Add Esth"
    · rw [show verifyVerseLoop osis previousNum (v₀ :: rest) =
          (match verifyValidateVerseBasic v₀ with
           | some e => some e
           | none => verifyVerseLoop osis previousNum rest) by
        simp [verifyVerseLoop, hos]] at h
      cases hb : verifyValidateVerseBasic v₀ with
      | some e => rw [hb] at h; exact Option.noConfusion h
      | none =>
        rw [hb] at h
        cases hv with
        | head =>
          unfold verifyValidateVerseBasic at hb
          by_cases h1 : v₀.v ≤ 0
          · rw [if_pos h1] at hb; exact Option.noConfusion hb
          rw [if_neg h1] at hb
          by_cases h2 : v₀.plain = ""
          · rw [if_pos h2] at hb; exact Option.noConfusion hb
          rw [if_neg h2] at hb
          by_cases h3 : flatten v₀.tokens ≠ v₀.plain
          · rw [if_pos h3] at hb; exact Option.noConfusion hb
          · exact not_not.mp h3
        | tail _ hmem => exact ih previousNum h v hmem
    · rw [show verifyVerseLoop osis previousNum (v₀ :: rest) =
          (match verifyValidateVerse v₀ previousNum with
           | some e => some e
           | none => verifyVerseLoop osis v₀.v rest) by
        simp [verifyVerseLoop, hos]] at h
      cases hb : verifyValidateVerse v₀ previousNum with
      | some e => rw [hb] at h; exact Option.noConfusion h
      | none =>
        rw [hb] at h
        cases hv with
        | head =>
          unfold verifyValidateVerse at hb
          by_cases h1 : v₀.v ≤ 0
          · rw [if_pos h1] at hb; exact Option.noConfusion hb
          rw [if_neg h1] at hb
          by_cases h2 : v₀.v ≠ previousNum + 1
          · rw [if_pos h2] at hb; exact Option.noConfusion hb
          rw [if_neg h2] at hb
          by_cases h3 : v₀.plain = ""
          · rw [if_pos h3] at hb; exact Option.noConfusion hb
          rw [if_neg h3] at hb
          by_cases h4 : flatten v₀.tokens ≠ v₀.plain
          · rw [if_pos h4] at hb; exact Option.noConfusion hb
          · exact not_not.mp h4
        | tail _ hmem => exact ih v₀.v h v hmem

/-! ## C1: where the round-trip check actually lives -/

def genMeta : BookMetadata :=
  { osis := "Gen", abbr := "GEN", name := "Genesis", aliases := []
    testament := "OT", order := 1, chapters := 50 }

/-- A chapter whose single verse stores plain text `"&"` but whose token
text is the raw `"&amp;"`: the normalized token concatenation differs from
the plain field. -/
def ec1 : ExtractedChapter :=
  { chapterNumber := 1
    verses := [{ number := 1, plain := "&", tokens := [⟨"&amp;", "", ""⟩] }]
    footnotes := []
    sourceFile := "GEN01.htm" }

/-- Claim C1 counterexample: the built verse's token concatenation differs
from its stored plain text, yet `ValidateChapterFile` reports no error at
all and the `ProcessBook` step writes the chapter to canonical output — the
ingest pipeline contains no round-trip check. -/
theorem c1_ingest_writes_mismatched_chapter :
    (extractedToChapter "KJV" genMeta ec1).verses =
      [{ v := 1, plain := "&", tokens := [⟨"&amp;", "", ""⟩] }] ∧
    flatten [⟨"&amp;", "", ""⟩] ≠ "&" ∧
    validateChapterFile metaGen "GEN01.htm" ec1 = some [] ∧
    processChapterStep metaGen "KJV" genMeta "GEN01.htm" ec1 =
      some (extractedToChapter "KJV" genMeta ec1) := by
  refine ⟨by decide, by decide, by decide, by decide⟩

/-- Claim C1, amended: the round-trip check is not part of the ingest
pipeline but of the separate verify tool — whenever some verse of a chapter
has `flatten(tokens) ≠ plain`, the verify tool's per-file validation
rejects that chapter with an error. -/
theorem c1_roundtrip_enforced_by_verify (ch : Chapter)
    (hmis : ∃ v ∈ ch.verses, flatten v.tokens ≠ v.plain) :
    ∃ e, verifyChapterFile ch = Except.error e := by
  obtain ⟨v, hv, hne⟩ := hmis
  by_cases hs : ch.schema ≠ 1
  · exact ⟨"invalid or missing schema version", by simp [verifyChapterFile, hs]⟩
  · cases hloop : verifyVerseLoop ch.osis 0 ch.verses with
    | some e =>
      exact ⟨"verse validation failed: " ++ e, by simp [verifyChapterFile, hs, hloop]⟩
    | none =>
      exact absurd (verifyVerseLoop_ok_roundtrip ch.osis 0 ch.verses hloop v hv) hne

theorem c1_roundtrip_enforced_by_verify_witness :
    ∃ e, verifyChapterFile (extractedToChapter "KJV" genMeta ec1) = Except.error e :=
  c1_roundtrip_enforced_by_verify (extractedToChapter "KJV" genMeta ec1)
    ⟨{ v := 1, plain := "&", tokens := [⟨"&amp;", "", ""⟩] }, by decide, by decide⟩

/-! ## HTML chapter parser (the ingest parser embedded in the Makefile blob) -/

mutual
/-- A parsed HTML node (`golang.org/x/net/html.Node`), restricted to element
and text nodes; comment and doctype nodes contribute nothing to any of the
parser's walks, so they are not modelled.  The sibling chain
(`FirstChild`/`NextSibling`) is modelled by `HForest`. -/
inductive HNode where
  | elem (tag : String) (attrs : List (String × String)) (children : HForest)
  | text (s : String)

/-- A sequence of sibling HTML nodes. -/
inductive HForest where
  | nil
  | cons (n : HNode) (rest : HForest)
end

mutual
/-- `getTextContent` of one node: concatenation of all text-node data in
document (preorder) order. -/
def textContent : HNode → String
  | HNode.elem _ _ cs => textContentF cs
  | HNode.text s => s

/-- `getTextContent` over a sibling sequence. -/
def textContentF : HForest → String
  | HForest.nil => ""
  | HForest.cons n rest => textContent n ++ textContentF rest
end

mutual
/-- Size of a node, for strong induction over the walks. -/
def sizeN : HNode → Nat
  | HNode.elem _ _ cs => 1 + sizeF cs
  | HNode.text _ => 1

def sizeF : HForest → Nat
  | HForest.nil => 1
  | HForest.cons n rest => 1 + sizeN n + sizeF rest
end

def childrenOf : HNode → HForest
  | HNode.elem _ _ cs => cs
  | HNode.text _ => HForest.nil

/-- `hasClass`: some `class` attribute whose whitespace-separated fields
(`strings.Fields`) contain the class name. -/
def hasClass (attrs : List (String × String)) (className : String) : Bool :=
  attrs.any (fun a => a.1 = "class" &&
    (fieldsBy isGoSpace a.2.toList).contains className.toList)

/-- The exact check `attr.Key == "class" && attr.Val == "verse"` used both
to recognize verse spans and to stop sibling walks. -/
def isVerseSpan : HNode → Bool
  | HNode.elem tag attrs _ =>
    tag = "span" && attrs.any (fun a => a.1 = "class" && a.2 = "verse")
  | HNode.text _ => false

/-- `cleanVerseText`: collapse `\s+` runs, `strings.TrimSpace`, then decode
entities (in exactly that order). -/
def cleanVerseText (s : String) : String :=
  decodeHTMLEntities (String.mk (goTrim (collapseWS s.toList)))

/-- `cleanVerseTextNoTrim`: collapse `\s+` runs and decode entities, keeping
boundary spaces. -/
def cleanVerseTextNoTrim (s : String) : String :=
  decodeHTMLEntities (String.mk (collapseWS s.toList))

/-- The pending-text flush of `extractVerseTokens` and
`extractTokensFromNode`: clean the accumulated text and emit it as a
PlainText token only when both the raw and the cleaned text are nonempty. -/
def flushTokens (toks : List Token) (cur : String) : List Token :=
  if cur = "" then toks
  else if cleanVerseTextNoTrim cur = "" then toks
  else toks ++ [{ text := cleanVerseTextNoTrim cur, add := "", nd := "" }]

mutual

/-- `extractVerseTokens`, walking the verse span's following siblings:
stops at the next verse span, accumulates text, emits raw-text `add`/`nd`
tokens, skips footnote marks, and recurses into other elements via
`extractTokensFromNode` after flushing. -/
def extractVerseTokensGo : HForest → List Token → String → List Token
  | HForest.nil, toks, cur => flushTokens toks cur
  | HForest.cons (HNode.text s) rest, toks, cur =>
    extractVerseTokensGo rest toks (cur ++ s)
  | HForest.cons (HNode.elem tag attrs cs) rest, toks, cur =>
    if tag = "span" && attrs.any (fun a => a.1 = "class" && a.2 = "verse") then
      flushTokens toks cur
    else if hasClass attrs "add" then
      extractVerseTokensGo rest
        (flushTokens toks cur ++ [{ text := "", add := textContentF cs, nd := "" }]) ""
    else if hasClass attrs "nd" then
      extractVerseTokensGo rest
        (flushTokens toks cur ++ [{ text := "", add := "", nd := textContentF cs }]) ""
    else if tag = "a" && hasClass attrs "notemark" then
      extractVerseTokensGo rest toks cur
    else
      extractVerseTokensGo rest
        (flushTokens toks cur ++ extractTokensFromNodeGo cs [] "") ""

/-- `extractTokensFromNode`, walking a node's children: same token rules,
but no verse-span stop check and — unlike the sibling walk — no flush of the
pending text before recursing into an ordinary element. -/
def extractTokensFromNodeGo : HForest → List Token → String → List Token
  | HForest.nil, toks, cur => flushTokens toks cur
  | HForest.cons (HNode.text s) rest, toks, cur =>
    extractTokensFromNodeGo rest toks (cur ++ s)
  | HForest.cons (HNode.elem tag attrs cs) rest, toks, cur =>
    if hasClass attrs "add" then
      extractTokensFromNodeGo rest
        (flushTokens toks cur ++ [{ text := "", add := textContentF cs, nd := "" }]) ""
    else if hasClass attrs "nd" then
      extractTokensFromNodeGo rest
        (flushTokens toks cur ++ [{ text := "", add := "", nd := textContentF cs }]) ""
    else if tag = "a" && hasClass attrs "notemark" then
      extractTokensFromNodeGo rest toks cur
    else
      extractTokensFromNodeGo rest (toks ++ extractTokensFromNodeGo cs [] "") cur

end

/-- Entry point of `extractVerseTokens`: start with no tokens and empty
pending text on the verse span's following siblings. -/
def extractVerseTokensFrom (siblings : HForest) : List Token :=
  extractVerseTokensGo siblings [] ""

/-- `extractVersePlainText`, walking the verse span's following siblings in
trim mode: stop at the next verse span, skip footnote marks, take the full
text content of other elements, then `cleanVerseText`. -/
def extractVersePlainTextGo : HForest → String → String
  | HForest.nil, acc => cleanVerseText acc
  | HForest.cons (HNode.text s) rest, acc => extractVersePlainTextGo rest (acc ++ s)
  | HForest.cons (HNode.elem tag attrs cs) rest, acc =>
    if tag = "span" && attrs.any (fun a => a.1 = "class" && a.2 = "verse") then
      cleanVerseText acc
    else if tag = "a" && hasClass attrs "notemark" then
      extractVersePlainTextGo rest acc
    else
      extractVersePlainTextGo rest (acc ++ textContentF cs)

/-- The Go `map[int]*ExtractedVerse` updated by `verseMap[num] = ...`:
overwrite an existing binding, otherwise add one. -/
def mupdate (m : List (Int × ExtractedVerse)) (k : Int) (v : ExtractedVerse) :
    List (Int × ExtractedVerse) :=
  if m.any (fun p => p.1 = k) then m.map (fun p => if p.1 = k then (k, v) else p)
  else m ++ [(k, v)]

def mlookup (m : List (Int × ExtractedVerse)) (k : Int) : Option ExtractedVerse :=
  (m.find? (fun p => p.1 = k)).map (fun p => p.2)

/-- Processing of one `<span class="verse">`: trim its text content, split
on space/newline/tab, parse the first field as the verse number, and store
the verse with its plain text and tokens built from the following
siblings. -/
def processVerseSpan (n : HNode) (rest : HForest)
    (m : List (Int × ExtractedVerse)) : List (Int × ExtractedVerse) :=
  match fieldsBy (fun c => c = ' ' || c = '\n' || c = '\t')
      (goTrim (textContent n).toList) with
  | [] => m
  | f :: _ =>
    match atoi (String.mk f) with
    | none => m
    | some num =>
      mupdate m num
        { number := num
          plain := extractVersePlainTextGo rest ""
          tokens := extractVerseTokensFrom rest }

/-- The depth-first walk of the parser's `extractVerses`: visit a node
(recording it when it is a verse span, with its following siblings for the
token/plain walks), then its children, then its following siblings. -/
def collectVerses : HForest → List (Int × ExtractedVerse) → List (Int × ExtractedVerse)
  | HForest.nil, m => m
  | HForest.cons (HNode.text _) rest, m => collectVerses rest m
  | HForest.cons (HNode.elem tag attrs cs) rest, m =>
    collectVerses rest
      (collectVerses cs
        (if isVerseSpan (HNode.elem tag attrs cs) then
          processVerseSpan (HNode.elem tag attrs cs) rest m
        else m))

/-- The verse numbers found in the document (the keys of `verseMap`, in
first-found order). -/
def foundVerseNumbers (doc : HNode) : List Int :=
  (collectVerses (HForest.cons doc HForest.nil) []).map (fun p => p.1)

/-- The parser's `extractVerses`: build `verseMap`, then convert it to a
slice with `for num := 1; num <= len(verseMap); num++`, and fail when the
result is empty. -/
def parserExtractVerses (doc : HNode) : Except String (List ExtractedVerse) :=
  let m := collectVerses (HForest.cons doc HForest.nil) []
  let verses := (List.range m.length).filterMap (fun i => mlookup m ((i : Int) + 1))
  if verses = [] then Except.error "no verses found in chapter" else Except.ok verses

/-- Decidable equality for `Except` results, used to evaluate the parser on
concrete documents. -/
instance exceptDecEq {ε α : Type} [DecidableEq ε] [DecidableEq α] :
    DecidableEq (Except ε α) := fun x y =>
  match x, y with
  | Except.ok a, Except.ok b =>
    if h : a = b then isTrue (by rw [h])
    else isFalse (fun he => h (by injection he))
  | Except.error a, Except.error b =>
    if h : a = b then isTrue (by rw [h])
    else isFalse (fun he => h (by injection he))
  | Except.ok _, Except.error _ => isFalse (fun he => Except.noConfusion he)
  | Except.error _, Except.ok _ => isFalse (fun he => Except.noConfusion he)

/-! ## C3: found verse numbers versus returned verse numbers -/

def span1 : HNode :=
  HNode.elem "span" [("class", "verse")] (HForest.cons (HNode.text "1") HForest.nil)

def span3 : HNode :=
  HNode.elem "span" [("class", "verse")] (HForest.cons (HNode.text "3") HForest.nil)

def doc3 : HNode :=
  HNode.elem "body" [] (HForest.cons span1 (HForest.cons span3 HForest.nil))

/-- Claim C3: a document whose verse-marker spans carry the numbers 1 and 3.
The walk finds both, but the map-to-slice loop
`for num := 1; num <= len(verseMap); num++` only covers `1..2`, so verse 3
is dropped from the returned list: the returned number set `{1}` is not the
found set `{1, 3}`. -/
theorem c3_extractVerses_drops_found_verse :
    foundVerseNumbers doc3 = [1, 3] ∧
    parserExtractVerses doc3 =
      Except.ok [{ number := 1, plain := "", tokens := [] }] ∧
    ([1] : List Int) ≠ [1, 3] := by
  refine ⟨by decide, by decide, by decide⟩

/-! ## C10: decodeHTMLEntities and the map iteration order -/

/-- The same replacement table with `&lt;` iterated before `&amp;` — a
legal iteration order of the Go map. -/
def entityTableSwapped : List (String × String) :=
  [("&#160;", " "), ("&nbsp;", " "), ("&lt;", "<"), ("&amp;", "&"),
   ("&gt;", ">"), ("&quot;", "\""), ("&apos;", "'")]

/-- Claim C10 counterexample: on the nested escape `"&amp;lt;"` the output
of `decodeHTMLEntities` depends on the iteration order of its replacement
map: iterating `&amp;` before `&lt;` produces `"<"`, the reverse order
produces `"&lt;"`. -/
theorem c10_decode_depends_on_order :
    entityTableSwapped.Perm entityTable ∧
    decodeHTMLEntitiesWith entityTable "&amp;lt;" = "<" ∧
    decodeHTMLEntitiesWith entityTableSwapped "&amp;lt;" = "&lt;" ∧
    decodeHTMLEntitiesWith entityTable "&amp;lt;" ≠
      decodeHTMLEntitiesWith entityTableSwapped "&amp;lt;" := by
  refine ⟨by decide, by decide, by decide, by decide⟩

theorem goReplaceAllAux_no_amp (old new : List Char) (hold : old.head? = some '&') :
    ∀ (fuel : Nat) (cs : List Char), ('&' : Char) ∉ cs →
      goReplaceAllAux old new fuel cs = cs := by
  intro fuel
  induction fuel with
  | zero =>
    intro cs _
    cases cs <;> rfl
  | succ fuel ih =>
    intro cs hamp
    cases cs with
    | nil => rfl
    | cons c rest =>
      have hc : c ≠ '&' := by
        intro h
        exact hamp (h ▸ List.mem_cons_self c rest)
      have hnp : ¬ (old ≠ [] ∧ old.isPrefixOf (c :: rest)) := by
        rintro ⟨-, hpre⟩
        cases old with
        | nil => exact Option.noConfusion hold
        | cons o t =>
          have ho : o = '&' := by injection hold
          have hband : ((o == c) && t.isPrefixOf rest) = true := by
            simpa [List.isPrefixOf] using hpre
          have hoc : o = c := eq_of_beq (Bool.and_eq_true_iff.mp hband).1
          exact hc (hoc ▸ ho)
      simp only [goReplaceAllAux, if_neg hnp]
      exact congrArg (fun l => c :: l)
        (ih rest (fun h => hamp (List.mem_cons_of_mem c h)))

theorem goReplaceAll_no_amp (old new cs : List Char)
    (hold : old.head? = some '&') (hamp : ('&' : Char) ∉ cs) :
    goReplaceAll old new cs = cs :=
  goReplaceAllAux_no_amp old new hold cs.length cs hamp

theorem findNumericAux_no_amp :
    ∀ (fuel : Nat) (cs : List Char), ('&' : Char) ∉ cs → findNumericAux fuel cs = [] := by
  intro fuel
  induction fuel with
  | zero =>
    intro cs _
    cases cs <;> rfl
  | succ fuel ih =>
    intro cs hamp
    cases cs with
    | nil => rfl
    | cons c rest =>
      have hc : ¬ c = '&' := by
        intro h
        exact hamp (h ▸ List.mem_cons_self c rest)
      simp only [findNumericAux, if_neg hc]
      exact ih rest (fun h => hamp (List.mem_cons_of_mem c h))

theorem findNumeric_no_amp (cs : List Char) (hamp : ('&' : Char) ∉ cs) :
    findNumeric cs = [] :=
  findNumericAux_no_amp cs.length cs hamp

theorem entityTable_keys_amp : ∀ p ∈ entityTable, p.1.toList.head? = some '&' := by
  decide

/-- Claim C10, amended: the output of `decodeHTMLEntities` can depend on the
iteration order of its internal replacement map (witness `"&amp;lt;"`), so
it is deterministic only per fixed order; on inputs containing no `'&'`
every iteration order of the table returns the input unchanged. -/
theorem c10_decode_amp_free (order : List (String × String)) (s : String)
    (hperm : order.Perm entityTable) (hamp : ('&' : Char) ∉ s.toList) :
    decodeHTMLEntitiesWith order s = s := by
  have hfold : order.foldl (fun acc p => goReplaceAll p.1.toList p.2.toList acc)
      s.toList = s.toList := by
    have hall : ∀ p ∈ order, p.1.toList.head? = some '&' := by
      intro p hp
      exact entityTable_keys_amp p (hperm.mem_iff.mp hp)
    clear hperm
    induction order with
    | nil => rfl
    | cons p rest ih =>
      rw [List.foldl_cons,
        goReplaceAll_no_amp p.1.toList p.2.toList s.toList
          (hall p (List.mem_cons_self p rest)) hamp]
      exact ih (fun q hq => hall q (List.mem_cons_of_mem p hq))
  unfold decodeHTMLEntitiesWith
  rw [hfold, show numericLoop 10 s.toList = s.toList by
    rw [numericLoop, if_pos (findNumeric_no_amp s.toList hamp)]]
  cases s
  rfl

theorem c10_decode_amp_free_witness : decodeHTMLEntitiesWith entityTable "abc" = "abc" :=
  c10_decode_amp_free entityTable "abc" (List.Perm.refl _) (by decide)

/-! ## C9: token emptiness -/

/-- The shapes of tokens the tokenizer can emit: a flushed PlainText token
(nonempty text, nothing else), an AddedWords token (empty text and nd), or
a DivineName token (empty text and add) — the latter two with arbitrary,
possibly empty, raw content. -/
def TokenShapeOK (t : Token) : Prop :=
  (t.text ≠ "" ∧ t.add = "" ∧ t.nd = "") ∨
  (t.text = "" ∧ t.nd = "") ∨ (t.text = "" ∧ t.add = "")

/-- A PlainText token with nonempty text. -/
def PlainTok (t : Token) : Prop := t.text ≠ "" ∧ t.add = "" ∧ t.nd = ""

theorem flushTokens_shape (toks : List Token) (cur : String)
    (h : ∀ t ∈ toks, TokenShapeOK t) : ∀ t ∈ flushTokens toks cur, TokenShapeOK t := by
  unfold flushTokens
  split_ifs with h1 h2
  · exact h
  · exact h
  · intro t ht
    rcases List.mem_append.mp ht with hm | hm
    · exact h t hm
    · rcases List.mem_singleton.mp hm with rfl
      exact Or.inl ⟨h2, rfl, rfl⟩

theorem flushTokens_plain (toks : List Token) (cur : String)
    (h : ∀ t ∈ toks, PlainTok t) : ∀ t ∈ flushTokens toks cur, PlainTok t := by
  unfold flushTokens
  split_ifs with h1 h2
  · exact h
  · exact h
  · intro t ht
    rcases List.mem_append.mp ht with hm | hm
    · exact h t hm
    · rcases List.mem_singleton.mp hm with rfl
      exact ⟨h2, rfl, rfl⟩

theorem sizeN_pos (n : HNode) : 1 ≤ sizeN n := by
  cases n <;> simp [sizeN]

theorem tokensShapeAux :
    ∀ (k : Nat) (ns : HForest), sizeF ns ≤ k →
      ∀ (toks : List Token) (cur : String), (∀ t ∈ toks, TokenShapeOK t) →
      (∀ t ∈ extractVerseTokensGo ns toks cur, TokenShapeOK t) ∧
      (∀ t ∈ extractTokensFromNodeGo ns toks cur, TokenShapeOK t) := by
  intro k
  induction k with
  | zero =>
    intro ns hns
    exact absurd hns (by cases ns <;> simp [sizeF] <;> omega)
  | succ k ih =>
    intro ns hns toks cur htoks
    cases ns with
    | nil =>
      refine ⟨?_, ?_⟩
      · intro t ht
        exact flushTokens_shape toks cur htoks t ht
      · intro t ht
        exact flushTokens_shape toks cur htoks t ht
    | cons n rest =>
      have hrest : sizeF rest ≤ k := by
        have := sizeN_pos n
        simp only [sizeF] at hns
        omega
      cases n with
      | text s =>
        refine ⟨?_, ?_⟩
        · intro t ht
          exact (ih rest hrest toks (cur ++ s) htoks).1 t ht
        · intro t ht
          exact (ih rest hrest toks (cur ++ s) htoks).2 t ht
      | elem tag attrs cs =>
        have hcs : sizeF cs ≤ k := by
          simp only [sizeF, sizeN] at hns
          omega
        have haddtok : ∀ t ∈ flushTokens toks cur ++
            [{ text := "", add := textContentF cs, nd := "" }], TokenShapeOK t := by
          intro t ht
          rcases List.mem_append.mp ht with hm | hm
          · exact flushTokens_shape toks cur htoks t hm
          · rcases List.mem_singleton.mp hm with rfl
            exact Or.inr (Or.inl ⟨rfl, rfl⟩)
        have hndtok : ∀ t ∈ flushTokens toks cur ++
            [{ text := "", add := "", nd := textContentF cs }], TokenShapeOK t := by
          intro t ht
          rcases List.mem_append.mp ht with hm | hm
          · exact flushTokens_shape toks cur htoks t hm
          · rcases List.mem_singleton.mp hm with rfl
            exact Or.inr (Or.inr ⟨rfl, rfl⟩)
        have hchild : ∀ t ∈ extractTokensFromNodeGo cs [] "", TokenShapeOK t :=
          (ih cs hcs [] "" (by intro t ht; cases ht)).2
        refine ⟨?_, ?_⟩
        · intro t ht
          simp only [extractVerseTokensGo] at ht
          split_ifs at ht with h1 h2 h3 h4
          · exact flushTokens_shape toks cur htoks t ht
          · exact (ih rest hrest _ "" haddtok).1 t ht
          · exact (ih rest hrest _ "" hndtok).1 t ht
          · exact (ih rest hrest toks cur htoks).1 t ht
          · refine (ih rest hrest _ "" ?_).1 t ht
            intro u hu
            rcases List.mem_append.mp hu with hm | hm
            · exact flushTokens_shape toks cur htoks u hm
            · exact hchild u hm
        · intro t ht
          simp only [extractTokensFromNodeGo] at ht
          split_ifs at ht with h1 h2 h3
          · exact (ih rest hrest _ "" haddtok).2 t ht
          · exact (ih rest hrest _ "" hndtok).2 t ht
          · exact (ih rest hrest toks cur htoks).2 t ht
          · refine (ih rest hrest _ cur ?_).2 t ht
            intro u hu
            rcases List.mem_append.mp hu with hm | hm
            · exact htoks u hm
            · exact hchild u hm

mutual
/-- A node containing no `add`- or `nd`-class element anywhere. -/
def noSpecialN : HNode → Bool
  | HNode.text _ => true
  | HNode.elem _ attrs cs =>
    !hasClass attrs "add" && !hasClass attrs "nd" && noSpecialF cs

def noSpecialF : HForest → Bool
  | HForest.nil => true
  | HForest.cons n rest => noSpecialN n && noSpecialF rest
end

theorem tokensPlainAux :
    ∀ (k : Nat) (ns : HForest), sizeF ns ≤ k → noSpecialF ns = true →
      ∀ (toks : List Token) (cur : String), (∀ t ∈ toks, PlainTok t) →
      (∀ t ∈ extractVerseTokensGo ns toks cur, PlainTok t) ∧
      (∀ t ∈ extractTokensFromNodeGo ns toks cur, PlainTok t) := by
  intro k
  induction k with
  | zero =>
    intro ns hns
    exact absurd hns (by cases ns <;> simp [sizeF] <;> omega)
  | succ k ih =>
    intro ns hns hsp toks cur htoks
    cases ns with
    | nil =>
      exact ⟨fun t ht => flushTokens_plain toks cur htoks t ht,
        fun t ht => flushTokens_plain toks cur htoks t ht⟩
    | cons n rest =>
      have hrest : sizeF rest ≤ k := by
        have := sizeN_pos n
        simp only [sizeF] at hns
        omega
      have hsp' := Bool.and_eq_true_iff.mp hsp
      cases n with
      | text s =>
        exact ⟨fun t ht => (ih rest hrest hsp'.2 toks (cur ++ s) htoks).1 t ht,
          fun t ht => (ih rest hrest hsp'.2 toks (cur ++ s) htoks).2 t ht⟩
      | elem tag attrs cs =>
        have hcs : sizeF cs ≤ k := by
          simp only [sizeF, sizeN] at hns
          omega
        have hn := hsp'.1
        simp only [noSpecialN, Bool.and_eq_true, Bool.not_eq_true'] at hn
        have hchild : ∀ t ∈ extractTokensFromNodeGo cs [] "", PlainTok t :=
          (ih cs hcs hn.2 [] "" (by intro t ht; cases ht)).2
        refine ⟨?_, ?_⟩
        · intro t ht
          simp only [extractVerseTokensGo] at ht
          split_ifs at ht with h1 h2 h3 h4
          · exact flushTokens_plain toks cur htoks t ht
          · exact absurd h2 (by rw [hn.1.1]; exact Bool.false_ne_true)
          · exact absurd h3 (by rw [hn.1.2]; exact Bool.false_ne_true)
          · exact (ih rest hrest hsp'.2 toks cur htoks).1 t ht
          · refine (ih rest hrest hsp'.2 _ "" ?_).1 t ht
            intro u hu
            rcases List.mem_append.mp hu with hm | hm
            · exact flushTokens_plain toks cur htoks u hm
            · exact hchild u hm
        · intro t ht
          simp only [extractTokensFromNodeGo] at ht
          split_ifs at ht with h1 h2 h3
          · exact absurd h1 (by rw [hn.1.1]; exact Bool.false_ne_true)
          · exact absurd h2 (by rw [hn.1.2]; exact Bool.false_ne_true)
          · exact (ih rest hrest hsp'.2 toks cur htoks).2 t ht
          · refine (ih rest hrest hsp'.2 _ cur ?_).2 t ht
            intro u hu
            rcases List.mem_append.mp hu with hm | hm
            · exact htoks u hm
            · exact hchild u hm

/-- Claim C9 counterexample: an `add`-class element with no content makes
the tokenizer emit a token whose held text (all three fields) is the empty
string — zero-length AddedWords tokens are NOT dropped. -/
theorem c9_empty_add_token_emitted :
    extractVerseTokensFrom
      (HForest.cons (HNode.elem "span" [("class", "add")] HForest.nil) HForest.nil) =
      [{ text := "", add := "", nd := "" }] ∧
    ({ text := "", add := "", nd := "" } : Token) ∈
      extractVerseTokensFrom
        (HForest.cons (HNode.elem "span" [("class", "add")] HForest.nil) HForest.nil) := by
  refine ⟨by decide, by decide⟩

/-- Claim C9, amended: zero-length PlainText tokens are dropped (flushed
text is emitted only when nonempty, and in the absence of add/nd elements
every emitted token is a PlainText token with nonempty text), but
AddedWords and DivineName tokens hold their element's raw text without an
emptiness check and may be zero-length; every emitted token holding
nonempty text is a pure PlainText token. -/
theorem c9_token_emptiness (ns : HForest) :
    (∀ t ∈ extractVerseTokensFrom ns, TokenShapeOK t) ∧
    (noSpecialF ns = true →
      ∀ t ∈ extractVerseTokensFrom ns, t.text ≠ "" ∧ t.add = "" ∧ t.nd = "") :=
  ⟨(tokensShapeAux (sizeF ns) ns le_rfl [] "" (by intro t ht; cases ht)).1,
   fun hns =>
     (tokensPlainAux (sizeF ns) ns le_rfl hns [] "" (by intro t ht; cases ht)).1⟩

def ns9 : HForest :=
  HForest.cons (HNode.text "hi ")
    (HForest.cons (HNode.elem "b" [] (HForest.cons (HNode.text "x") HForest.nil))
      HForest.nil)

theorem c9_token_emptiness_witness :
    TokenShapeOK { text := "hi ", add := "", nd := "" } ∧
    ({ text := "hi ", add := "", nd := "" } : Token).text ≠ "" :=
  ⟨(c9_token_emptiness ns9).1 { text := "hi ", add := "", nd := "" } (by decide),
   ((c9_token_emptiness ns9).2 (by decide)
      { text := "hi ", add := "", nd := "" } (by decide)).1⟩

end KJV
